import Mathlib

/-!
Verification of the inventory management program (`inventory.py`).

The program keeps a process-wide Python dict `stock_data` mapping item names
(strings) to integer quantities, with operations `add_item`, `remove_item`,
`get_qty`, `check_low_items`, `load_data`, `save_data`.

Embedding choices:
* A Python dict is modelled as an insertion-ordered association list
  `List (String × Int)`; `d[k] = v` keeps the key at its existing position
  (or appends a fresh key at the end), `del d[k]` removes the key, and
  iteration follows the list order — exactly Python dict semantics.
* Python ints are `Int` (arbitrary precision, like Python).
* The `isinstance` checks on already well-typed arguments are vacuous in the
  typed embedding: `item` ranges over `String` (the representable invalid
  case is the empty string) and `qty` over `Int` (the representable invalid
  case is a negative value).
* The global `stock_data` becomes explicit state passed in and returned.
* The logging sink is external (fire-and-forget); for `load_data` we record
  which log line / branch was taken, because the spec distinguishes the
  "not found" warning from the "decode error" error.
* File I/O is the opaque serialize/deserialize boundary of the spec: a file
  is absent, present-but-invalid-JSON, or a JSON object of string keys and
  integer values; `json.dump`/`json.load` round-trip such objects exactly.
-/

namespace Inventory

/-- The Stock Store: Python dict `stock_data`, as an insertion-ordered
association list from item name to quantity. -/
abbrev Store := List (String × Int)

/-- Python `d.get(k)` / `k in d`: the first (for a dict: only) binding of `k`. -/
def dictGet : Store → String → Option Int
  | [], _ => none
  | (k1, v1) :: rest, k => if k1 = k then some v1 else dictGet rest k

/-- Python `d[k] = v`: replace the value at `k` in place, or append `(k, v)`
at the end when `k` is absent. -/
def dictSet : Store → String → Int → Store
  | [], k, v => [(k, v)]
  | (k1, v1) :: rest, k, v =>
    if k1 = k then (k, v) :: rest else (k1, v1) :: dictSet rest k v

/-- Python `del d[k]`: drop the binding of `k` (a dict has at most one). -/
def dictDel : Store → String → Store
  | [], _ => []
  | (k1, v1) :: rest, k => if k1 = k then rest else (k1, v1) :: dictDel rest k

/-- Python `d.update(data)`: set every binding of `data` in order. -/
def dictUpdate (st data : Store) : Store :=
  data.foldl (fun acc p => dictSet acc p.1 p.2) st

/-- Well-formedness every actual Python dict enjoys: keys are unique. -/
def storeWF (st : Store) : Prop := (st.map Prod.fst).Nodup

instance (st : Store) : Decidable (storeWF st) := by
  unfold storeWF; infer_instance

/-- The spec's Stock Store invariant: every present quantity is ≥ 1. -/
def storeInv (st : Store) : Prop := ∀ p ∈ st, 1 ≤ p.2

instance (st : Store) : Decidable (storeInv st) :=
  List.decidableBAll _ st

/-- Result of a mutation: the new store and the returned success flag. -/
structure OpResult where
  store : Store
  ok : Bool
deriving DecidableEq

/-- `add_item` (inventory.py lines 12–40): validate that `item` is a
non-empty string and `qty` a non-negative integer (returning `False` with no
mutation otherwise), then `stock_data[item] = stock_data.get(item, 0) + qty`
and return `True`. The optional `logs` collector only accumulates a message
string and does not affect state or result, so it is not modelled. -/
def add_item (st : Store) (item : String) (qty : Int) : OpResult :=
  if item = "" then ⟨st, false⟩
  else if qty < 0 then ⟨st, false⟩
  else ⟨dictSet st item ((dictGet st item).getD 0 + qty), true⟩

/-- `remove_item` (inventory.py lines 43–84): fail if `item` is absent, fail
if `qty` is negative, fail if current stock is below `qty`; otherwise
`stock_data[item] -= qty`, then delete the key when the result is ≤ 0.
The `KeyError`/`TypeError` handlers are unreachable for string/int arguments
and have no counterpart in the typed embedding. -/
def remove_item (st : Store) (item : String) (qty : Int) : OpResult :=
  match dictGet st item with
  | none => ⟨st, false⟩
  | some s =>
    if qty < 0 then ⟨st, false⟩
    else if s < qty then ⟨st, false⟩
    else if s - qty ≤ 0 then ⟨dictDel (dictSet st item (s - qty)) item, true⟩
    else ⟨dictSet st item (s - qty), true⟩

/-- `get_qty` (inventory.py lines 87–97): `stock_data.get(item, 0)`. -/
def get_qty (st : Store) (item : String) : Int :=
  (dictGet st item).getD 0

/-- `check_low_items` (inventory.py lines 154–168): iterate the store in
order, collecting every item whose quantity is strictly below `threshold`. -/
def check_low_items (st : Store) (threshold : Int) : List String :=
  match st with
  | [] => []
  | (item, quantity) :: rest =>
    if quantity < threshold then item :: check_low_items rest threshold
    else check_low_items rest threshold

/-- Content of the persistence source/destination at the opaque JSON
boundary: invalid JSON text, or a JSON object with string keys and integer
values (what `save_data` writes and the claims range over). -/
inductive FileContent where
  | invalid : FileContent
  | object : Store → FileContent
deriving DecidableEq

/-- A file that may be absent. -/
abbrev File := Option FileContent

/-- Which branch of `load_data` ran, mirroring its three log lines:
`info` "Data loaded successfully", `warning` "File not found", or
`error` "Error decoding JSON". -/
inductive LoadEvent where
  | loaded : LoadEvent
  | fileAbsent : LoadEvent
  | decodeFailed : LoadEvent
deriving DecidableEq

/-- Result of `load_data`: the new store, the returned flag, the event. -/
structure LoadResult where
  store : Store
  ok : Bool
  event : LoadEvent
deriving DecidableEq

/-- `load_data` (inventory.py lines 98–117): on a readable JSON object,
`stock_data.clear()` then `stock_data.update(data)` and return `True`; on
`FileNotFoundError`, clear the store and return `False` (warning log); on
`json.JSONDecodeError`, return `False` with the store untouched (the clear
only runs after a successful `json.load`). Never raises. -/
def load_data (st : Store) (file : File) : LoadResult :=
  match file with
  | none => ⟨[], false, LoadEvent.fileAbsent⟩
  | some FileContent.invalid => ⟨st, false, LoadEvent.decodeFailed⟩
  | some (FileContent.object data) => ⟨dictUpdate [] data, true, LoadEvent.loaded⟩

/-- `save_data` (inventory.py lines 120–138): serialize the whole store as a
JSON object, overwriting the destination. The write boundary is modelled as
completing (the `IOError` branch concerns the external file system, outside
the store model). -/
def save_data (st : Store) : File :=
  some (FileContent.object st)

/- ### Dictionary lemmas -/

theorem dictGet_dictSet_self (st : Store) (k : String) (v : Int) :
    dictGet (dictSet st k v) k = some v := by
  induction st with
  | nil => simp [dictSet, dictGet]
  | cons hd tl ih =>
    obtain ⟨k1, v1⟩ := hd
    by_cases h : k1 = k
    · simp [dictSet, dictGet, h]
    · simp [dictSet, dictGet, h, ih]

theorem dictGet_dictSet_ne (st : Store) (k k' : String) (v : Int)
    (h : k' ≠ k) : dictGet (dictSet st k v) k' = dictGet st k' := by
  have h' : ¬ k = k' := fun hh => h hh.symm
  induction st with
  | nil => simp [dictSet, dictGet, h']
  | cons hd tl ih =>
    obtain ⟨k1, v1⟩ := hd
    by_cases h1 : k1 = k
    · subst h1
      simp [dictSet, dictGet, h']
    · by_cases h2 : k1 = k'
      · simp [dictSet, dictGet, h1, h2, h]
      · simp [dictSet, dictGet, h1, h2, ih]

theorem dictGet_dictDel_ne (st : Store) (k k' : String)
    (h : k' ≠ k) : dictGet (dictDel st k) k' = dictGet st k' := by
  have h' : ¬ k = k' := fun hh => h hh.symm
  induction st with
  | nil => simp [dictDel]
  | cons hd tl ih =>
    obtain ⟨k1, v1⟩ := hd
    by_cases h1 : k1 = k
    · subst h1
      simp [dictDel, dictGet, h']
    · by_cases h2 : k1 = k'
      · simp [dictDel, dictGet, h1, h2, h]
      · simp [dictDel, dictGet, h1, h2, ih]

theorem dictGet_eq_none_of_not_mem_keys (st : Store) (k : String)
    (h : k ∉ st.map Prod.fst) : dictGet st k = none := by
  induction st with
  | nil => simp [dictGet]
  | cons hd tl ih =>
    obtain ⟨k1, v1⟩ := hd
    simp only [List.map_cons, List.mem_cons] at h
    push_neg at h
    have h1 : ¬ k1 = k := fun hh => h.1 hh.symm
    simp [dictGet, h1, ih h.2]

theorem dictGet_dictDel_self (st : Store) (k : String)
    (hwf : storeWF st) : dictGet (dictDel st k) k = none := by
  induction st with
  | nil => simp [dictDel, dictGet]
  | cons hd tl ih =>
    obtain ⟨k1, v1⟩ := hd
    simp only [storeWF, List.map_cons, List.nodup_cons] at hwf
    by_cases h1 : k1 = k
    · subst h1
      simp only [dictDel, if_pos rfl]
      exact dictGet_eq_none_of_not_mem_keys tl k1 hwf.1
    · simp [dictDel, dictGet, h1]
      exact ih hwf.2

theorem mem_dictSet (st : Store) (k : String) (v : Int) (p : String × Int)
    (h : p ∈ dictSet st k v) : p = (k, v) ∨ p ∈ st := by
  induction st with
  | nil =>
    simp [dictSet] at h
    exact Or.inl h
  | cons hd tl ih =>
    obtain ⟨k1, v1⟩ := hd
    by_cases h1 : k1 = k
    · simp [dictSet, h1] at h
      rcases h with h | h
      · exact Or.inl h
      · exact Or.inr (List.mem_cons_of_mem _ h)
    · simp only [dictSet, if_neg h1, List.mem_cons] at h
      rcases h with h | h
      · exact Or.inr (by simp [h])
      · rcases ih h with h2 | h2
        · exact Or.inl h2
        · exact Or.inr (List.mem_cons_of_mem _ h2)

theorem mem_dictDel (st : Store) (k : String) (p : String × Int)
    (h : p ∈ dictDel st k) : p ∈ st := by
  induction st with
  | nil => exact h
  | cons hd tl ih =>
    obtain ⟨k1, v1⟩ := hd
    by_cases h1 : k1 = k
    · simp only [dictDel, if_pos h1] at h
      exact List.mem_cons_of_mem _ h
    · simp only [dictDel, if_neg h1, List.mem_cons] at h
      rcases h with h | h
      · simp [h]
      · exact List.mem_cons_of_mem _ (ih h)

theorem dictDel_dictSet (st : Store) (k : String) (v : Int) :
    dictDel (dictSet st k v) k = dictDel st k := by
  induction st with
  | nil => simp [dictSet, dictDel]
  | cons hd tl ih =>
    obtain ⟨k1, v1⟩ := hd
    by_cases h1 : k1 = k
    · simp [dictSet, dictDel, h1]
    · simp [dictSet, dictDel, h1, ih]

theorem dictUpdate_cons_acc (data : Store) (k : String) (v : Int)
    (acc : Store) (h : k ∉ data.map Prod.fst) :
    dictUpdate ((k, v) :: acc) data = (k, v) :: dictUpdate acc data := by
  induction data generalizing acc with
  | nil => simp [dictUpdate]
  | cons hd tl ih =>
    obtain ⟨k2, v2⟩ := hd
    simp only [List.map_cons, List.mem_cons] at h
    push_neg at h
    have hk : k ≠ k2 := h.1
    simp only [dictUpdate, List.foldl_cons] at *
    have hset : dictSet ((k, v) :: acc) k2 v2 = (k, v) :: dictSet acc k2 v2 := by
      simp [dictSet, hk]
    rw [hset]
    exact ih (dictSet acc k2 v2) h.2

theorem dictUpdate_nil_eq_self (st : Store) (hwf : storeWF st) :
    dictUpdate [] st = st := by
  induction st with
  | nil => rfl
  | cons hd tl ih =>
    obtain ⟨k, v⟩ := hd
    simp only [storeWF, List.map_cons, List.nodup_cons] at hwf
    calc dictUpdate [] ((k, v) :: tl)
        = dictUpdate ((k, v) :: []) tl := rfl
      _ = (k, v) :: dictUpdate [] tl := dictUpdate_cons_acc tl k v [] hwf.1
      _ = (k, v) :: tl := by rw [ih hwf.2]

theorem mem_dictUpdate (data acc : Store) (p : String × Int)
    (h : p ∈ dictUpdate acc data) : p ∈ acc ∨ p ∈ data := by
  induction data generalizing acc with
  | nil => exact Or.inl (by simpa [dictUpdate] using h)
  | cons hd tl ih =>
    obtain ⟨k2, v2⟩ := hd
    simp only [dictUpdate, List.foldl_cons] at h
    rcases ih (dictSet acc k2 v2) h with h1 | h1
    · rcases mem_dictSet acc k2 v2 p h1 with h2 | h2
      · exact Or.inr (by simp [h2])
      · exact Or.inl h2
    · exact Or.inr (List.mem_cons_of_mem _ h1)

theorem dictGet_mem (st : Store) (k : String) (v : Int)
    (h : dictGet st k = some v) : (k, v) ∈ st := by
  induction st with
  | nil => simp [dictGet] at h
  | cons hd tl ih =>
    obtain ⟨k1, v1⟩ := hd
    by_cases h1 : k1 = k
    · subst h1
      simp [dictGet] at h
      simp [h]
    · simp only [dictGet, if_neg h1] at h
      exact List.mem_cons_of_mem _ (ih h)

/-- Helper for C9: the loop in `check_low_items` computes the in-order
filter of the store by `quantity < threshold`, projected to item names. -/
theorem check_low_items_eq_filter (st : Store) (threshold : Int) :
    check_low_items st threshold
      = (st.filter (fun p => decide (p.2 < threshold))).map Prod.fst := by
  induction st with
  | nil => rfl
  | cons hd tl ih =>
    obtain ⟨item, quantity⟩ := hd
    by_cases h : quantity < threshold
    · simp [check_low_items, h, ih]
    · simp [check_low_items, h, ih]

/- ### Claims -/

/-- C1, counterexample: the claimed invariant ("every present quantity is
≥ 1, no operation leaves a zero-quantity entry") is violated by `add_item`:
on an empty store, `add_item("a", 0)` passes validation (`0` is a
non-negative integer), succeeds, and inserts the entry `("a", 0)`. -/
theorem add_item_zero_entry_counterexample :
    (add_item [] "a" 0).ok = true ∧
    dictGet (add_item [] "a" 0).store "a" = some 0 ∧
    ¬ storeInv (add_item [] "a" 0).store := by
  decide

/-- C1, amended: the invariant is preserved by `remove_item` always, by
`add_item` whenever `qty ≥ 1`, and by `load_data` whenever the loaded
object itself satisfies it (the file-absent and decode-failure branches
leave an empty resp. unchanged store); but `add_item` with `qty = 0` can
create a zero-quantity entry, and `load_data` installs whatever integer
values the source holds. -/
theorem store_invariant_amended (st : Store) (hinv : storeInv st) :
    (∀ item qty, 1 ≤ qty → storeInv (add_item st item qty).store) ∧
    (∀ item qty, storeInv (remove_item st item qty).store) ∧
    (∀ file : File,
      (∀ d, file = some (FileContent.object d) → storeInv d) →
      storeInv (load_data st file).store) := by
  refine ⟨?_, ?_, ?_⟩
  · intro item qty hqty
    by_cases hi : item = ""
    · simpa [add_item, hi] using hinv
    · have hq : ¬ qty < 0 := by omega
      simp only [add_item, if_neg hi, if_neg hq]
      intro p hp
      rcases mem_dictSet st item _ p hp with h | h
      · subst h
        cases hg : dictGet st item with
        | none => simp [hg]; omega
        | some w =>
          have hw : 1 ≤ w := hinv (item, w) (dictGet_mem st item w hg)
          simp [hg]; omega
      · exact hinv p h
  · intro item qty
    cases hg : dictGet st item with
    | none => simpa [remove_item, hg] using hinv
    | some s =>
      by_cases h1 : qty < 0
      · simpa [remove_item, hg, h1] using hinv
      · by_cases h2 : s < qty
        · simpa [remove_item, hg, h1, h2] using hinv
        · by_cases h3 : s - qty ≤ 0
          · simp only [remove_item, hg, if_neg h1, if_neg h2, if_pos h3]
            rw [dictDel_dictSet]
            intro p hp
            exact hinv p (mem_dictDel st item p hp)
          · simp only [remove_item, hg, if_neg h1, if_neg h2, if_neg h3]
            intro p hp
            rcases mem_dictSet st item _ p hp with h | h
            · subst h; simp; omega
            · exact hinv p h
  · intro file hf
    match file with
    | none => intro p hp; simp [load_data] at hp
    | some FileContent.invalid => simpa [load_data] using hinv
    | some (FileContent.object d) =>
      have hd : storeInv d := hf d rfl
      intro p hp
      simp only [load_data] at hp
      rcases mem_dictUpdate d [] p hp with h | h
      · simp at h
      · exact hd p h

/-- C1 witness for the amended theorem. -/
theorem store_invariant_amended_witness :
    storeInv (add_item [("x", 2)] "y" 3).store :=
  (store_invariant_amended [("x", 2)] (by decide)).1 "y" 3 (by decide)

/-- C2: for a non-empty item name and `qty ≥ 0`, `add_item` succeeds and a
subsequent `get_qty` returns the prior quantity (0 when absent) plus
`qty`. -/
theorem add_then_get_quantity (st : Store) (item : String) (qty : Int)
    (hitem : item ≠ "") (hqty : 0 ≤ qty) :
    (add_item st item qty).ok = true ∧
    get_qty (add_item st item qty).store item = get_qty st item + qty := by
  have hq : ¬ qty < 0 := by omega
  simp only [add_item, if_neg hitem, if_neg hq]
  exact ⟨trivial, by simp [get_qty, dictGet_dictSet_self]⟩

/-- C2 witness. -/
theorem add_then_get_quantity_witness :
    (add_item [("apple", 10)] "apple" 5).ok = true ∧
    get_qty (add_item [("apple", 10)] "apple" 5).store "apple"
      = get_qty [("apple", 10)] "apple" + 5 :=
  add_then_get_quantity [("apple", 10)] "apple" 5 (by decide) (by decide)

/-- C3: when `item` is present with stock `s` and `qty > s`, `remove_item`
returns `False` and the entire store is left unchanged (all-or-nothing);
this also covers negative `qty` (validation failure), which likewise
mutates nothing. -/
theorem remove_insufficient_unchanged (st : Store) (item : String)
    (s qty : Int) (hmem : dictGet st item = some s) (hqty : s < qty) :
    (remove_item st item qty).ok = false ∧
    (remove_item st item qty).store = st := by
  simp only [remove_item, hmem]
  by_cases h1 : qty < 0
  · simp [h1]
  · simp [h1, if_pos hqty]

/-- C3 witness. -/
theorem remove_insufficient_unchanged_witness :
    (remove_item [("apple", 15)] "apple" 20).ok = false ∧
    (remove_item [("apple", 15)] "apple" 20).store = [("apple", 15)] :=
  remove_insufficient_unchanged [("apple", 15)] "apple" 15 20
    (by decide) (by decide)

/-- C4: saving any well-formed store (unique keys, as every Python dict
has) whose quantities are non-negative and loading it back succeeds and
reconstructs exactly the saved store, whatever the store was before the
load. -/
theorem save_load_roundtrip (st0 st : Store) (hwf : storeWF st)
    (hq : ∀ p ∈ st, 0 ≤ p.2) :
    (load_data st0 (save_data st)).ok = true ∧
    (load_data st0 (save_data st)).store = st := by
  exact ⟨rfl, dictUpdate_nil_eq_self st hwf⟩

/-- C4 witness. -/
theorem save_load_roundtrip_witness :
    (load_data [("z", 1)] (save_data [("apple", 10), ("banana", 5)])).ok
      = true ∧
    (load_data [("z", 1)] (save_data [("apple", 10), ("banana", 5)])).store
      = [("apple", 10), ("banana", 5)] :=
  save_load_roundtrip [("z", 1)] [("apple", 10), ("banana", 5)]
    (by decide) (by decide)

/-- C5, counterexample: the claim quantifies over every store state, but a
negative stock is reachable (`load_data` installs whatever integers the
file holds), and there `remove_item item s` hits the
quantity-validation branch and fails, leaving the entry in place; on
`[("a", -1)]`, `remove_item "a" (-1)` returns `False` and the key is still
present with quantity `-1`. -/
theorem remove_exact_claim_counterexample :
    (remove_item [("a", -1)] "a" (-1)).ok = false ∧
    dictGet (remove_item [("a", -1)] "a" (-1)).store "a" = some (-1) ∧
    get_qty (remove_item [("a", -1)] "a" (-1)).store "a" ≠ 0 := by
  decide

/-- C5, amended: additionally assuming the present stock `s` is ≥ 0,
`remove_item item s` succeeds, deletes the key entirely, and a subsequent
`get_qty` returns 0; and for `0 ≤ qty < s`, `remove_item item qty`
succeeds and stores the decremented value `s - qty`. -/
theorem remove_exact_or_partial (st : Store) (item : String) (s : Int)
    (hwf : storeWF st) (hmem : dictGet st item = some s) (hs : 0 ≤ s) :
    ((remove_item st item s).ok = true ∧
     dictGet (remove_item st item s).store item = none ∧
     get_qty (remove_item st item s).store item = 0) ∧
    ∀ qty : Int, 0 ≤ qty → qty < s →
      (remove_item st item qty).ok = true ∧
      dictGet (remove_item st item qty).store item = some (s - qty) := by
  constructor
  · have h1 : ¬ s < 0 := by omega
    have h2 : ¬ s < s := by omega
    have h3 : s - s ≤ 0 := by omega
    simp only [remove_item, hmem, if_neg h1, if_neg h2, if_pos h3]
    rw [dictDel_dictSet]
    refine ⟨trivial, dictGet_dictDel_self st item hwf, ?_⟩
    simp [get_qty, dictGet_dictDel_self st item hwf]
  · intro qty hq0 hqs
    have h1 : ¬ qty < 0 := by omega
    have h2 : ¬ s < qty := by omega
    have h3 : ¬ s - qty ≤ 0 := by omega
    simp only [remove_item, hmem, if_neg h1, if_neg h2, if_neg h3]
    exact ⟨trivial, dictGet_dictSet_self st item (s - qty)⟩

/-- C5 witness for the amended theorem. -/
theorem remove_exact_or_partial_witness :
    ((remove_item [("apple", 15)] "apple" 15).ok = true ∧
     dictGet (remove_item [("apple", 15)] "apple" 15).store "apple" = none ∧
     get_qty (remove_item [("apple", 15)] "apple" 15).store "apple" = 0) ∧
    ∀ qty : Int, 0 ≤ qty → qty < 15 →
      (remove_item [("apple", 15)] "apple" qty).ok = true ∧
      dictGet (remove_item [("apple", 15)] "apple" qty).store "apple"
        = some (15 - qty) :=
  remove_exact_or_partial [("apple", 15)] "apple" 15
    (by decide) (by decide) (by decide)

/-- C6: loading from an absent source resets the store to empty, returns
`False` without raising (`FileNotFoundError` is caught), and the recorded
outcome is the "not found" warning, distinct from the decode-error
outcome. -/
theorem load_file_absent (st : Store) :
    (load_data st none).store = [] ∧
    (load_data st none).ok = false ∧
    (load_data st none).event = LoadEvent.fileAbsent ∧
    (load_data st none).event ≠ (load_data st (some FileContent.invalid)).event := by
  refine ⟨rfl, rfl, rfl, ?_⟩
  simp [load_data]

/-- C7: when the item name is empty or the quantity is negative (the
representable forms of "not a non-empty string" / "not a non-negative
integer"), `add_item` returns `False` and the store is untouched. -/
theorem add_invalid_unchanged (st : Store) (item : String) (qty : Int)
    (h : item = "" ∨ qty < 0) :
    (add_item st item qty).ok = false ∧
    (add_item st item qty).store = st := by
  rcases h with h | h
  · simp [add_item, h]
  · by_cases hi : item = ""
    · simp [add_item, hi]
    · simp [add_item, hi, h]

/-- C7 witness. -/
theorem add_invalid_unchanged_witness :
    (add_item [("apple", 10)] "" 5).ok = false ∧
    (add_item [("apple", 10)] "" 5).store = [("apple", 10)] :=
  add_invalid_unchanged [("apple", 10)] "" 5 (Or.inl rfl)

/-- C8: loading from a source that exists but holds invalid JSON returns
`False` and leaves the store exactly as it was (`stock_data.clear()` runs
only after a successful parse). -/
theorem load_decode_failed_unchanged (st : Store) :
    (load_data st (some FileContent.invalid)).ok = false ∧
    (load_data st (some FileContent.invalid)).store = st :=
  ⟨rfl, rfl⟩

/-- C9: `check_low_items` returns exactly the item names with quantity
strictly below the threshold, in the store's insertion order (it is the
in-order filter of the store), it is read-only (a pure function of the
store in this embedding), and on
`[("apple", 10), ("banana", 5), ("orange", 3)]` with threshold 5 it
returns exactly `["orange"]`. -/
theorem check_low_items_correct (st : Store) (threshold : Int) :
    check_low_items st threshold
      = (st.filter (fun p => decide (p.2 < threshold))).map Prod.fst ∧
    (∀ x, x ∈ check_low_items st threshold ↔
      ∃ q, (x, q) ∈ st ∧ q < threshold) ∧
    check_low_items [("apple", 10), ("banana", 5), ("orange", 3)] 5
      = ["orange"] := by
  refine ⟨check_low_items_eq_filter st threshold, ?_, by decide⟩
  intro x
  rw [check_low_items_eq_filter]
  simp only [List.mem_map, List.mem_filter]
  constructor
  · rintro ⟨⟨a, b⟩, ⟨hmem, hlt⟩, rfl⟩
    exact ⟨b, hmem, by simpa using hlt⟩
  · rintro ⟨q, hmem, hlt⟩
    exact ⟨(x, q), ⟨hmem, by simpa using hlt⟩, rfl⟩

/-- C10: frame property — for any key `k` other than the operated-on
`item`, both `add_item` and `remove_item` leave `k`'s binding (presence
and quantity, as observed by `dictGet`) exactly as before, on every
success and failure path. -/
theorem mutation_frame_other_keys (st : Store) (item k : String) (qty : Int)
    (h : k ≠ item) :
    dictGet (add_item st item qty).store k = dictGet st k ∧
    dictGet (remove_item st item qty).store k = dictGet st k := by
  constructor
  · by_cases hi : item = ""
    · simp [add_item, hi]
    · by_cases hq : qty < 0
      · simp [add_item, hi, hq]
      · simp [add_item, hi, hq, dictGet_dictSet_ne st item k _ h]
  · cases hg : dictGet st item with
    | none => simp [remove_item, hg]
    | some s =>
      by_cases h1 : qty < 0
      · simp [remove_item, hg, h1]
      · by_cases h2 : s < qty
        · simp [remove_item, hg, h1, h2]
        · by_cases h3 : s - qty ≤ 0
          · simp only [remove_item, hg, if_neg h1, if_neg h2, if_pos h3]
            rw [dictGet_dictDel_ne _ _ _ h, dictGet_dictSet_ne _ _ _ _ h]
          · simp only [remove_item, hg, if_neg h1, if_neg h2, if_neg h3]
            exact dictGet_dictSet_ne st item k _ h

/-- C10 witness. -/
theorem mutation_frame_other_keys_witness :
    dictGet (add_item [("apple", 10), ("banana", 5)] "apple" 3).store "banana"
      = dictGet [("apple", 10), ("banana", 5)] "banana" ∧
    dictGet (remove_item [("apple", 10), ("banana", 5)] "apple" 3).store "banana"
      = dictGet [("apple", 10), ("banana", 5)] "banana" :=
  mutation_frame_other_keys [("apple", 10), ("banana", 5)] "apple" "banana" 3
    (by decide)

end Inventory
